import Mathlib

/-!
Verification development for the `mc_hash_rng.h` single-header library: a stateless,
hash-based pseudo-random number generator.  The C code is shallowly embedded below:
32-bit unsigned values are `Nat` with explicit `% 2^32` wherever C unsigned overflow
occurs, signed 32-bit values are `Int` reinterpreted through an explicit wrap,
the index buffer (a pointer to a block whose byte length is a multiple of 4) is a
`List Nat` of its 32-bit words, and the unbounded rejection-sampling loop is given
an explicit fuel counter returning `Option` — partial correctness is stated for
every run that returns.  The `float` values produced by the [0,1] mapper are exactly
representable in binary32 (numerators below 2^24 divided by the power of two 2^24),
so that mapper is embedded exactly over `ℚ`.
-/

namespace MCHashRng

/-- The mixing-constant table `MCHR_PRIMES`: a degenerate leading `1` followed by
five odd 32-bit constants. -/
def MCHR_PRIMES : List Nat :=
  [1, 0x9E3779B1, 0x85EBCA77, 0xC2B2AE3D, 0x27D4EB2F, 0x165667B1]

/-- `MCHR_PRIMES_LEN` from the source: the table has 6 entries. -/
def MCHR_PRIMES_LEN : Nat := 6

/-- Finalizer constant `MCHR_BIT_NOISE1`. -/
def MCHR_BIT_NOISE1 : Nat := 0x68E31DA4

/-- Finalizer constant `MCHR_BIT_NOISE2`. -/
def MCHR_BIT_NOISE2 : Nat := 0xB5297A4D

/-- Finalizer constant `MCHR_BIT_NOISE3`. -/
def MCHR_BIT_NOISE3 : Nat := 0x1B56C4E9

/-- The word-consuming `while (len > 0)` loop of `mchr_get_hash_uint`: `i` is the
rotating table index (kept below 6 by the `% MCHR_PRIMES_LEN` on every advance)
and `num` the 32-bit accumulator. -/
def mchr_hash_loop : List Nat → Nat → Nat → Nat
  | [], _i, num => num
  | w :: ws, i, num =>
    mchr_hash_loop ws ((i + 1) % MCHR_PRIMES_LEN)
      ((num + w * MCHR_PRIMES.getD i 0 + MCHR_PRIMES.getD ((i + 1) % MCHR_PRIMES_LEN) 0) % 2 ^ 32)

/-- `mchr_get_hash_uint`: accumulate the words, multiply by `MCHR_BIT_NOISE1`,
add the seed, then the xor-shift finalizer.  All arithmetic is modulo 2^32
(xor and right shift of values below 2^32 stay below 2^32; the left shift is
reduced explicitly, as the C `unsigned` arithmetic does). -/
def mchr_get_hash_uint (index_buffer : List Nat) (seed : Nat) : Nat :=
  let num0 := mchr_hash_loop index_buffer 0 0
  let num1 := num0 * MCHR_BIT_NOISE1 % 2 ^ 32
  let num2 := (num1 + seed) % 2 ^ 32
  let num3 := num2 ^^^ num2 >>> 8
  let num4 := (num3 + MCHR_BIT_NOISE2) % 2 ^ 32
  let num5 := num4 ^^^ num4 <<< 8 % 2 ^ 32
  let num6 := num5 * MCHR_BIT_NOISE3 % 2 ^ 32
  num6 ^^^ num6 >>> 8

/-- Bit length of a 32-bit value, computed by at most `k` halvings (the first
argument is a structural bound; `32` suffices for any value below 2^32). -/
def bitlenGo : Nat → Nat → Nat
  | 0, _ => 0
  | k + 1, v => if v = 0 then 0 else bitlenGo k (v / 2) + 1

/-- The leading-zero-count capability used by the source (`__builtin_clz` /
`_BitScanReverse`), on the 32-bit domain, with the source's explicit
`clz 0 = 32` convention. -/
def clz (value : Nat) : Nat := 32 - bitlenGo 32 value

/-- The inner window loop of `mchr_get_hash_uint_under_limit`:
`while (bits_left >= bits) { value >>= bits; result = value & mask; ... }`.
The last argument is a structural bound on the iteration count; calling it with
the initial `bits_left` is exact whenever `bits ≥ 1`, because each iteration
removes `bits ≥ 1` from `bits_left` (at the unreachable `bits = 0` the C loop
would not terminate). -/
def mchr_window_loop : Nat → Nat → Nat → Nat → Nat → Nat → Option Nat
  | _bits, _mask, _upper_bound, _value, _bits_left, 0 => none
  | bits, mask, upper_bound, value, bits_left, fuel + 1 =>
    if bits_left < bits then none
    else
      let value2 := value >>> bits
      let result := value2 &&& mask
      if result < upper_bound then some result
      else mchr_window_loop bits mask upper_bound value2 (bits_left - bits) fuel

/-- The outer `do { ... } while (1)` loop of `mchr_get_hash_uint_under_limit`:
draw a hash, test the low window, then the remaining windows, and on full
rejection retry with `seed + 1` (32-bit wrap).  `fuel` bounds the number of
draws; `none` means the bound was reached without an accepted window. -/
def mchr_limit_loop (index_buffer : List Nat) (bits mask upper_bound zeros : Nat) :
    Nat → Nat → Option Nat
  | _seed, 0 => none
  | seed, fuel + 1 =>
    let value := mchr_get_hash_uint index_buffer seed
    let result := value &&& mask
    if result < upper_bound then some result
    else
      match mchr_window_loop bits mask upper_bound value zeros zeros with
      | some r => some r
      | none => mchr_limit_loop index_buffer bits mask upper_bound zeros ((seed + 1) % 2 ^ 32) fuel

/-- `mchr_get_hash_uint_under_limit`: degenerate bounds below 2 return 0 before
any hashing; otherwise `zeros = clz upper_bound`, `bits = 32 - zeros`,
`mask = 0xFFFFFFFF >> zeros`, and the rejection loop runs. -/
def mchr_get_hash_uint_under_limit (fuel : Nat) (index_buffer : List Nat)
    (seed upper_bound : Nat) : Option Nat :=
  if upper_bound < 2 then some 0
  else
    let zeros := clz upper_bound
    let bits := 32 - zeros
    let mask := 0xFFFFFFFF >>> zeros
    mchr_limit_loop index_buffer bits mask upper_bound zeros seed fuel

/-- `mchr_priv_uint_to_zero_one`: values of `num` at most 2^24 divided by 2^24.
Exact over `ℚ`: every such quotient is exactly representable in binary32, and
the C float arithmetic on them is exact. -/
def mchr_priv_uint_to_zero_one (num : Nat) : ℚ :=
  if 2 ^ 24 ≤ num then 1 else ((num &&& (2 ^ 24 - 1) : Nat) : ℚ) / 2 ^ 24

/-- `mchr_priv_uint_to_neg_one_one`: `num & (2^25 - 1)` divided by 2^25, then
scaled to [-1, 1].  Embedded over `ℚ` with exact division. -/
def mchr_priv_uint_to_neg_one_one (num : Nat) : ℚ :=
  ((num &&& (2 ^ 25 - 1) : Nat) : ℚ) / 2 ^ 25 * 2 - 1

/-- `mchr_get_hash_uint_in_range`: `under_limit(buf, seed, max - min + 1) + min`,
both arithmetic steps in 32-bit unsigned arithmetic. -/
def mchr_get_hash_uint_in_range (fuel : Nat) (index_buffer : List Nat)
    (seed min max : Nat) : Option Nat :=
  (mchr_get_hash_uint_under_limit fuel index_buffer seed ((max - min + 1) % 2 ^ 32)).map
    (fun r => (r + min) % 2 ^ 32)

/-- Reinterpretation of a 32-bit pattern as a signed two's-complement value. -/
def mchr_int32_wrap (z : Int) : Int := (z + 2 ^ 31) % 2 ^ 32 - 2 ^ 31

/-- `mchr_get_hash_int_in_range`: identical arithmetic to the unsigned variant,
computed in wrapping 32-bit arithmetic and reinterpreted as signed. -/
def mchr_get_hash_int_in_range (fuel : Nat) (index_buffer : List Nat)
    (seed : Nat) (min max : Int) : Option Int :=
  (mchr_get_hash_uint_under_limit fuel index_buffer seed ((max - min + 1) % 2 ^ 32).toNat).map
    (fun r => mchr_int32_wrap (Int.ofNat r + min))

/-- `mchr_get_hash_zero_to_one`: draw below `2^24 + 1` and map to [0, 1]. -/
def mchr_get_hash_zero_to_one (fuel : Nat) (index_buffer : List Nat) (seed : Nat) :
    Option ℚ :=
  (mchr_get_hash_uint_under_limit fuel index_buffer seed (2 ^ 24 + 1)).map
    mchr_priv_uint_to_zero_one

/-- `mchr_get_hash_neg_one_to_one`: draw below `2^25` and map to [-1, 1]. -/
def mchr_get_hash_neg_one_to_one (fuel : Nat) (index_buffer : List Nat) (seed : Nat) :
    Option ℚ :=
  (mchr_get_hash_uint_under_limit fuel index_buffer seed (2 ^ 25)).map
    mchr_priv_uint_to_neg_one_one

/-- `mchr_get_chance`: true when the [0, 1] draw is strictly below the
probability. -/
def mchr_get_chance (fuel : Nat) (index_buffer : List Nat) (seed : Nat)
    (probability_of_true : ℚ) : Option Bool :=
  (mchr_get_hash_zero_to_one fuel index_buffer seed).map
    (fun q => decide (q < probability_of_true))

/-- Packing of one signed 32-bit coordinate into the buffer word the C facade
passes by address: the two's-complement bit pattern. -/
def mchr_pack_coord (pos : Int) : Nat := (pos % 2 ^ 32).toNat

/-- `mchr_get_1d_hash_uint`: hash of the one packed coordinate. -/
def mchr_get_1d_hash_uint (pos : Int) (seed : Nat) : Nat :=
  mchr_get_hash_uint [mchr_pack_coord pos] seed

/-- `mchr_get_2d_hash_uint`. -/
def mchr_get_2d_hash_uint (posX posY : Int) (seed : Nat) : Nat :=
  mchr_get_hash_uint [mchr_pack_coord posX, mchr_pack_coord posY] seed

/-- `mchr_get_3d_hash_uint`. -/
def mchr_get_3d_hash_uint (posX posY posZ : Int) (seed : Nat) : Nat :=
  mchr_get_hash_uint [mchr_pack_coord posX, mchr_pack_coord posY, mchr_pack_coord posZ] seed

/-- `mchr_get_4d_hash_uint`. -/
def mchr_get_4d_hash_uint (posX posY posZ posT : Int) (seed : Nat) : Nat :=
  mchr_get_hash_uint
    [mchr_pack_coord posX, mchr_pack_coord posY, mchr_pack_coord posZ, mchr_pack_coord posT] seed

/-- `mchr_get_1d_hash_uint_in_range`. -/
def mchr_get_1d_hash_uint_in_range (fuel : Nat) (pos : Int) (seed min max : Nat) :
    Option Nat :=
  (mchr_get_hash_uint_under_limit fuel [mchr_pack_coord pos] seed ((max - min + 1) % 2 ^ 32)).map
    (fun r => (r + min) % 2 ^ 32)

/-- `mchr_get_2d_hash_uint_in_range`. -/
def mchr_get_2d_hash_uint_in_range (fuel : Nat) (posX posY : Int) (seed min max : Nat) :
    Option Nat :=
  (mchr_get_hash_uint_under_limit fuel [mchr_pack_coord posX, mchr_pack_coord posY] seed
      ((max - min + 1) % 2 ^ 32)).map (fun r => (r + min) % 2 ^ 32)

/-- `mchr_get_3d_hash_uint_in_range`. -/
def mchr_get_3d_hash_uint_in_range (fuel : Nat) (posX posY posZ : Int)
    (seed min max : Nat) : Option Nat :=
  (mchr_get_hash_uint_under_limit fuel
      [mchr_pack_coord posX, mchr_pack_coord posY, mchr_pack_coord posZ] seed
      ((max - min + 1) % 2 ^ 32)).map (fun r => (r + min) % 2 ^ 32)

/-- `mchr_get_4d_hash_uint_in_range`. -/
def mchr_get_4d_hash_uint_in_range (fuel : Nat) (posX posY posZ posT : Int)
    (seed min max : Nat) : Option Nat :=
  (mchr_get_hash_uint_under_limit fuel
      [mchr_pack_coord posX, mchr_pack_coord posY, mchr_pack_coord posZ, mchr_pack_coord posT]
      seed ((max - min + 1) % 2 ^ 32)).map (fun r => (r + min) % 2 ^ 32)

/-- `mchr_get_1d_hash_int_in_range`. -/
def mchr_get_1d_hash_int_in_range (fuel : Nat) (pos : Int) (seed : Nat) (min max : Int) :
    Option Int :=
  (mchr_get_hash_uint_under_limit fuel [mchr_pack_coord pos] seed
      ((max - min + 1) % 2 ^ 32).toNat).map (fun r => mchr_int32_wrap (Int.ofNat r + min))

/-- `mchr_get_2d_hash_int_in_range`. -/
def mchr_get_2d_hash_int_in_range (fuel : Nat) (posX posY : Int) (seed : Nat)
    (min max : Int) : Option Int :=
  (mchr_get_hash_uint_under_limit fuel [mchr_pack_coord posX, mchr_pack_coord posY] seed
      ((max - min + 1) % 2 ^ 32).toNat).map (fun r => mchr_int32_wrap (Int.ofNat r + min))

/-- `mchr_get_3d_hash_int_in_range`. -/
def mchr_get_3d_hash_int_in_range (fuel : Nat) (posX posY posZ : Int) (seed : Nat)
    (min max : Int) : Option Int :=
  (mchr_get_hash_uint_under_limit fuel
      [mchr_pack_coord posX, mchr_pack_coord posY, mchr_pack_coord posZ] seed
      ((max - min + 1) % 2 ^ 32).toNat).map (fun r => mchr_int32_wrap (Int.ofNat r + min))

/-- `mchr_get_4d_hash_int_in_range`. -/
def mchr_get_4d_hash_int_in_range (fuel : Nat) (posX posY posZ posT : Int) (seed : Nat)
    (min max : Int) : Option Int :=
  (mchr_get_hash_uint_under_limit fuel
      [mchr_pack_coord posX, mchr_pack_coord posY, mchr_pack_coord posZ, mchr_pack_coord posT]
      seed ((max - min + 1) % 2 ^ 32).toNat).map (fun r => mchr_int32_wrap (Int.ofNat r + min))

/-- `mchr_get_1d_hash_zero_to_one`. -/
def mchr_get_1d_hash_zero_to_one (fuel : Nat) (pos : Int) (seed : Nat) : Option ℚ :=
  (mchr_get_hash_uint_under_limit fuel [mchr_pack_coord pos] seed (2 ^ 24 + 1)).map
    mchr_priv_uint_to_zero_one

/-- `mchr_get_2d_hash_zero_to_one`. -/
def mchr_get_2d_hash_zero_to_one (fuel : Nat) (posX posY : Int) (seed : Nat) : Option ℚ :=
  (mchr_get_hash_uint_under_limit fuel [mchr_pack_coord posX, mchr_pack_coord posY] seed
      (2 ^ 24 + 1)).map mchr_priv_uint_to_zero_one

/-- `mchr_get_3d_hash_zero_to_one`. -/
def mchr_get_3d_hash_zero_to_one (fuel : Nat) (posX posY posZ : Int) (seed : Nat) :
    Option ℚ :=
  (mchr_get_hash_uint_under_limit fuel
      [mchr_pack_coord posX, mchr_pack_coord posY, mchr_pack_coord posZ] seed
      (2 ^ 24 + 1)).map mchr_priv_uint_to_zero_one

/-- `mchr_get_4d_hash_zero_to_one`. -/
def mchr_get_4d_hash_zero_to_one (fuel : Nat) (posX posY posZ posT : Int) (seed : Nat) :
    Option ℚ :=
  (mchr_get_hash_uint_under_limit fuel
      [mchr_pack_coord posX, mchr_pack_coord posY, mchr_pack_coord posZ, mchr_pack_coord posT]
      seed (2 ^ 24 + 1)).map mchr_priv_uint_to_zero_one

/-- `mchr_get_1d_hash_neg_one_to_one`. -/
def mchr_get_1d_hash_neg_one_to_one (fuel : Nat) (pos : Int) (seed : Nat) : Option ℚ :=
  (mchr_get_hash_uint_under_limit fuel [mchr_pack_coord pos] seed (2 ^ 25)).map
    mchr_priv_uint_to_neg_one_one

/-- `mchr_get_2d_hash_neg_one_to_one`. -/
def mchr_get_2d_hash_neg_one_to_one (fuel : Nat) (posX posY : Int) (seed : Nat) :
    Option ℚ :=
  (mchr_get_hash_uint_under_limit fuel [mchr_pack_coord posX, mchr_pack_coord posY] seed
      (2 ^ 25)).map mchr_priv_uint_to_neg_one_one

/-- `mchr_get_3d_hash_neg_one_to_one`. -/
def mchr_get_3d_hash_neg_one_to_one (fuel : Nat) (posX posY posZ : Int) (seed : Nat) :
    Option ℚ :=
  (mchr_get_hash_uint_under_limit fuel
      [mchr_pack_coord posX, mchr_pack_coord posY, mchr_pack_coord posZ] seed
      (2 ^ 25)).map mchr_priv_uint_to_neg_one_one

/-- `mchr_get_4d_hash_neg_one_to_one`. -/
def mchr_get_4d_hash_neg_one_to_one (fuel : Nat) (posX posY posZ posT : Int) (seed : Nat) :
    Option ℚ :=
  (mchr_get_hash_uint_under_limit fuel
      [mchr_pack_coord posX, mchr_pack_coord posY, mchr_pack_coord posZ, mchr_pack_coord posT]
      seed (2 ^ 25)).map mchr_priv_uint_to_neg_one_one

/-- `mchr_get_1d_chance`: delegates to the 1-coordinate [0, 1] mapper, as the C
does. -/
def mchr_get_1d_chance (fuel : Nat) (pos : Int) (seed : Nat) (probability_of_true : ℚ) :
    Option Bool :=
  (mchr_get_1d_hash_zero_to_one fuel pos seed).map (fun q => decide (q < probability_of_true))

/-- `mchr_get_2d_chance`. -/
def mchr_get_2d_chance (fuel : Nat) (posX posY : Int) (seed : Nat)
    (probability_of_true : ℚ) : Option Bool :=
  (mchr_get_2d_hash_zero_to_one fuel posX posY seed).map
    (fun q => decide (q < probability_of_true))

/-- `mchr_get_3d_chance`. -/
def mchr_get_3d_chance (fuel : Nat) (posX posY posZ : Int) (seed : Nat)
    (probability_of_true : ℚ) : Option Bool :=
  (mchr_get_3d_hash_zero_to_one fuel posX posY posZ seed).map
    (fun q => decide (q < probability_of_true))

/-- `mchr_get_4d_chance`. -/
def mchr_get_4d_chance (fuel : Nat) (posX posY posZ posT : Int) (seed : Nat)
    (probability_of_true : ℚ) : Option Bool :=
  (mchr_get_4d_hash_zero_to_one fuel posX posY posZ posT seed).map
    (fun q => decide (q < probability_of_true))

/-- Mixer claimed-algorithm reference, written from the specification's words:
accumulate the words with the rotating table, then add the seed, then apply the
five-step avalanche finalizer.  (The specification's description has no
multiplication between the word loop and the seed addition.) -/
def mchr_hash_uint_as_claimed (index_buffer : List Nat) (seed : Nat) : Nat :=
  let num0 := mchr_hash_loop index_buffer 0 0
  let num2 := (num0 + seed) % 2 ^ 32
  let num3 := num2 ^^^ num2 >>> 8
  let num4 := (num3 + MCHR_BIT_NOISE2) % 2 ^ 32
  let num5 := num4 ^^^ num4 <<< 8 % 2 ^ 32
  let num6 := num5 * MCHR_BIT_NOISE3 % 2 ^ 32
  num6 ^^^ num6 >>> 8

/-- Specification-shaped form of the word accumulation: a left fold over the
word positions, where position `j` uses table entries `j % 6` and
`(j + 1) % 6`. -/
def mchr_mixer_words_spec (words : List Nat) : Nat :=
  (List.range words.length).foldl
    (fun acc j =>
      (acc + words.getD j 0 * MCHR_PRIMES.getD (j % 6) 0 +
        MCHR_PRIMES.getD ((j + 1) % 6) 0) % 2 ^ 32)
    0

/-- `bitlenGo` of zero is zero for any amount of fuel. -/
theorem bitlenGo_zero (k : Nat) : bitlenGo k 0 = 0 := by
  cases k <;> simp [bitlenGo]

/-- For a positive value below `2 ^ k`, `bitlenGo k` computes the bit length:
the value lies in `[2 ^ (b - 1), 2 ^ b)` where `b` is the result, and the
result is positive and at most `k`. -/
theorem bitlenGo_bounds :
    ∀ (k v : Nat), 0 < v → v < 2 ^ k →
      2 ^ (bitlenGo k v - 1) ≤ v ∧ v < 2 ^ bitlenGo k v ∧
        0 < bitlenGo k v ∧ bitlenGo k v ≤ k := by
  intro k
  induction k with
  | zero => intro v hv hlt; simp at hlt; omega
  | succ k ih =>
    intro v hv hlt
    have hvne : v ≠ 0 := Nat.pos_iff_ne_zero.mp hv
    simp only [bitlenGo, hvne, if_false]
    rcases Nat.eq_zero_or_pos (v / 2) with hhalf | hhalf
    · have hv1 : v = 1 := by omega
      subst hv1
      simp [bitlenGo_zero]
    · have hdiv : v / 2 < 2 ^ k := by
        have : v < 2 ^ k * 2 := by
          rw [Nat.pow_succ] at hlt; omega
        omega
      obtain ⟨h1, h2, h3, h4⟩ := ih (v / 2) hhalf hdiv
      refine ⟨?_, ?_, by omega, by omega⟩
      · have hb1 : bitlenGo k (v / 2) - 1 + 1 = bitlenGo k (v / 2) := by omega
        have hpow : 2 ^ bitlenGo k (v / 2) = 2 ^ (bitlenGo k (v / 2) - 1) * 2 := by
          conv_lhs => rw [← hb1]
          rw [Nat.pow_succ]
        rw [Nat.add_sub_cancel, hpow]
        omega
      · rw [Nat.pow_succ]
        omega

/-- For `2 ≤ upper_bound < 2 ^ 32`, `32 - clz upper_bound` is the bit length
of `upper_bound`, with the bounds that make it the minimal covering width. -/
theorem clz_bits_bounds (upper_bound : Nat) (h2 : 2 ≤ upper_bound)
    (h32 : upper_bound < 2 ^ 32) :
    2 ^ (32 - clz upper_bound - 1) ≤ upper_bound ∧
      upper_bound < 2 ^ (32 - clz upper_bound) ∧
      2 ≤ 32 - clz upper_bound ∧ clz upper_bound ≤ 30 := by
  obtain ⟨h1, hlt, hpos, hle⟩ := bitlenGo_bounds 32 upper_bound (by omega) h32
  have hclz : clz upper_bound = 32 - bitlenGo 32 upper_bound := rfl
  have hb : 32 - clz upper_bound = bitlenGo 32 upper_bound := by omega
  rw [hb]
  have hb2 : 2 ≤ bitlenGo 32 upper_bound := by
    by_contra hcon
    have : bitlenGo 32 upper_bound ≤ 1 := by omega
    have : 2 ^ bitlenGo 32 upper_bound ≤ 2 ^ 1 := Nat.pow_le_pow_right (by omega) this
    omega
  exact ⟨h1, hlt, hb2, by omega⟩

/-- Right-shifting the all-ones 32-bit mask by `z ≤ 32` positions yields
`2 ^ (32 - z) - 1`. -/
theorem mask_shift_eq (z : Nat) (hz : z ≤ 32) :
    0xFFFFFFFF >>> z = 2 ^ (32 - z) - 1 := by
  rw [Nat.shiftRight_eq_div_pow]
  have hsplit : 2 ^ (32 - z) * 2 ^ z = 2 ^ 32 := by
    rw [← Nat.pow_add]
    congr 1
    omega
  have hzpos : 0 < 2 ^ z := Nat.pos_pow_of_pos z (by omega)
  have h32pos : 0 < 2 ^ (32 - z) := Nat.pos_pow_of_pos _ (by omega)
  have : (0xFFFFFFFF : Nat) = 2 ^ 32 - 1 := by norm_num
  rw [this]
  apply Nat.div_eq_of_lt_le
  · calc (2 ^ (32 - z) - 1) * 2 ^ z = 2 ^ (32 - z) * 2 ^ z - 2 ^ z := by
          rw [Nat.sub_mul, Nat.one_mul]
    _ ≤ 2 ^ 32 - 1 := by rw [hsplit]; omega
  · rw [Nat.sub_add_cancel h32pos, hsplit]
    omega

/-- Every `some` result of the inner window loop passed the
`result < upper_bound` test. -/
theorem mchr_window_loop_lt :
    ∀ (fuel bits mask upper_bound value bits_left r : Nat),
      mchr_window_loop bits mask upper_bound value bits_left fuel = some r →
      r < upper_bound := by
  intro fuel
  induction fuel with
  | zero => intro bits mask ub value bl r h; simp [mchr_window_loop] at h
  | succ fuel ih =>
    intro bits mask ub value bl r h
    simp only [mchr_window_loop] at h
    split at h
    · exact absurd h (by simp)
    · split at h
      · cases h; assumption
      · exact ih bits mask ub _ _ r h

/-- Every `some` result of the outer rejection loop passed the
`result < upper_bound` test. -/
theorem mchr_limit_loop_lt :
    ∀ (fuel : Nat) (index_buffer : List Nat) (bits mask upper_bound zeros seed r : Nat),
      mchr_limit_loop index_buffer bits mask upper_bound zeros seed fuel = some r →
      r < upper_bound := by
  intro fuel
  induction fuel with
  | zero => intro buf bits mask ub zeros seed r h; simp [mchr_limit_loop] at h
  | succ fuel ih =>
    intro buf bits mask ub zeros seed r h
    simp only [mchr_limit_loop] at h
    split at h
    · cases h; assumption
    · cases hw : mchr_window_loop bits mask ub (mchr_get_hash_uint buf seed) zeros zeros with
      | some r2 =>
        rw [hw] at h
        cases h
        exact mchr_window_loop_lt zeros bits mask ub _ zeros r hw
      | none =>
        rw [hw] at h
        exact ih buf bits mask ub zeros _ r h

/-- Shared bound: with a non-degenerate bound, any returned sample is below
the bound. -/
theorem mchr_under_limit_lt (fuel : Nat) (index_buffer : List Nat)
    (seed upper_bound r : Nat) (h2 : 2 ≤ upper_bound)
    (h : mchr_get_hash_uint_under_limit fuel index_buffer seed upper_bound = some r) :
    r < upper_bound := by
  unfold mchr_get_hash_uint_under_limit at h
  rw [if_neg (by omega)] at h
  exact mchr_limit_loop_lt fuel index_buffer _ _ upper_bound _ seed r h

/-- Shared degenerate case: bounds below 2 short-circuit to 0 before the loop
and before any use of `clz`. -/
theorem mchr_under_limit_degenerate (fuel : Nat) (index_buffer : List Nat)
    (seed upper_bound : Nat) (h : upper_bound < 2) :
    mchr_get_hash_uint_under_limit fuel index_buffer seed upper_bound = some 0 := by
  unfold mchr_get_hash_uint_under_limit
  rw [if_pos h]

/-- The rotating-index accumulation loop, started at table index `i < 6`,
equals a fold over word positions `j` using table entries `(i + j) % 6` and
`(i + j + 1) % 6`. -/
theorem mchr_hash_loop_eq_fold (ws : List Nat) :
    ∀ (i acc : Nat), i < 6 →
      mchr_hash_loop ws i acc =
        (List.range ws.length).foldl
          (fun a j =>
            (a + ws.getD j 0 * MCHR_PRIMES.getD ((i + j) % 6) 0 +
              MCHR_PRIMES.getD ((i + j + 1) % 6) 0) % 2 ^ 32)
          acc := by
  induction ws with
  | nil => intro i acc _; simp [mchr_hash_loop]
  | cons w ws ih =>
    intro i acc hi
    have hmod : i % 6 = i := Nat.mod_eq_of_lt hi
    simp only [mchr_hash_loop, MCHR_PRIMES_LEN]
    rw [ih ((i + 1) % 6) _ (Nat.mod_lt _ (by omega))]
    rw [List.length_cons, List.range_succ_eq_map, List.foldl_cons, List.foldl_map]
    have hinit :
        (acc + w * MCHR_PRIMES.getD i 0 + MCHR_PRIMES.getD ((i + 1) % 6) 0) % 2 ^ 32 =
          (acc + (w :: ws).getD 0 0 * MCHR_PRIMES.getD ((i + 0) % 6) 0 +
            MCHR_PRIMES.getD ((i + 0 + 1) % 6) 0) % 2 ^ 32 := by
      simp [hmod]
    have hfun :
        (fun (a j : Nat) =>
            (a + ws.getD j 0 * MCHR_PRIMES.getD (((i + 1) % 6 + j) % 6) 0 +
              MCHR_PRIMES.getD (((i + 1) % 6 + j + 1) % 6) 0) % 2 ^ 32) =
          (fun (a j : Nat) =>
            (a + (w :: ws).getD j.succ 0 * MCHR_PRIMES.getD ((i + j.succ) % 6) 0 +
              MCHR_PRIMES.getD ((i + j.succ + 1) % 6) 0) % 2 ^ 32) := by
      funext a j
      have e1 : ((i + 1) % 6 + j) % 6 = (i + j.succ) % 6 := by
        rw [Nat.mod_add_mod]
        congr 1
        omega
      have e2 : ((i + 1) % 6 + j + 1) % 6 = (i + j.succ + 1) % 6 := by
        have : (i + 1) % 6 + j + 1 = (i + 1) % 6 + (j + 1) := by omega
        rw [this, Nat.mod_add_mod]
        congr 1
        omega
      rw [e1, e2]
      simp
    rw [hinit, hfun]

/-- Started at table index 0 with accumulator 0 — as `mchr_get_hash_uint`
starts it — the loop computes the specification-shaped fold. -/
theorem mchr_hash_loop_zero_eq_spec (index_buffer : List Nat) :
    mchr_hash_loop index_buffer 0 0 = mchr_mixer_words_spec index_buffer := by
  rw [mchr_hash_loop_eq_fold index_buffer 0 0 (by omega), mchr_mixer_words_spec]
  simp only [Nat.zero_add]

/-- C3 (counterexample): the claim's formula — word accumulation, then seed
addition, then the five-step finalizer, with no multiplication by
`MCHR_BIT_NOISE1` in between — does not compute `mchr_get_hash_uint`: they
differ already at the one-word buffer `[0]` with seed 0 (`0xFC158A7E` versus
`0x6C749B68`). -/
theorem mchr_hash_uint_claim_formula_cex :
    mchr_hash_uint_as_claimed [0] 0 ≠ mchr_get_hash_uint [0] 0 := by decide

/-- C3 (amended): `mchr_get_hash_uint` accumulates
`w_j * table[(j) % 6] + table[(j + 1) % 6]` over the words with the rotating
6-entry table (first entry 1), then multiplies by the constant `0x68E31DA4`,
then adds the seed, then applies the avalanche finalizer — XOR-shift-right 8,
add constant, XOR-shift-left 8, multiply by constant, XOR-shift-right 8 — all
arithmetic modulo 2^32. -/
theorem mchr_hash_uint_algorithm_amended (index_buffer : List Nat) (seed : Nat) :
    mchr_get_hash_uint index_buffer seed =
      let acc := mchr_mixer_words_spec index_buffer
      let m := acc * 0x68E31DA4 % 2 ^ 32
      let s := (m + seed) % 2 ^ 32
      let x1 := s ^^^ s >>> 8
      let x2 := (x1 + 0xB5297A4D) % 2 ^ 32
      let x3 := x2 ^^^ x2 <<< 8 % 2 ^ 32
      let x4 := x3 * 0x1B56C4E9 % 2 ^ 32
      x4 ^^^ x4 >>> 8 := by
  simp only [mchr_get_hash_uint, mchr_hash_loop_zero_eq_spec,
    MCHR_BIT_NOISE1, MCHR_BIT_NOISE2, MCHR_BIT_NOISE3]

/-- C1: whenever `mchr_get_hash_uint_under_limit` returns with a bound of at
least 2, the result is strictly below the bound (nonnegativity is inherent in
the `Nat` embedding of the unsigned type). -/
theorem mchr_under_limit_result_lt_bound (fuel : Nat) (index_buffer : List Nat)
    (seed upper_bound r : Nat) (h2 : 2 ≤ upper_bound) (_h32 : upper_bound < 2 ^ 32)
    (h : mchr_get_hash_uint_under_limit fuel index_buffer seed upper_bound = some r) :
    r < upper_bound :=
  mchr_under_limit_lt fuel index_buffer seed upper_bound r h2 h

/-- Witness for C1 at fuel 1, buffer `[0]`, seed 0, bound 5: the sampler
returns 0, which is below 5. -/
theorem mchr_under_limit_result_lt_bound_witness :
    2 ≤ 5 ∧ 5 < 2 ^ 32 ∧
      mchr_get_hash_uint_under_limit 1 [0] 0 5 = some 0 ∧ 0 < 5 :=
  ⟨by decide, by decide, by decide,
    mchr_under_limit_result_lt_bound 1 [0] 0 5 0 (by decide) (by decide) (by decide)⟩

/-- C4: for `2 ≤ upper_bound < 2^32`, `bits = 32 - clz upper_bound` is the
smallest bit count with `2^bits - 1 ≥ upper_bound` (the first two conjuncts:
it suffices, and one bit fewer does not), the computed mask
`0xFFFFFFFF >> clz upper_bound` equals `2^bits - 1`, and
`2^(bits - 1) ≤ upper_bound` (the acceptance probability is at least 1/2). -/
theorem mchr_bits_mask_minimal (upper_bound : Nat) (h2 : 2 ≤ upper_bound)
    (h32 : upper_bound < 2 ^ 32) :
    upper_bound ≤ 2 ^ (32 - clz upper_bound) - 1 ∧
      2 ^ (32 - clz upper_bound - 1) - 1 < upper_bound ∧
      0xFFFFFFFF >>> clz upper_bound = 2 ^ (32 - clz upper_bound) - 1 ∧
      2 ^ (32 - clz upper_bound - 1) ≤ upper_bound := by
  obtain ⟨hlow, hhigh, hb2, hz30⟩ := clz_bits_bounds upper_bound h2 h32
  exact ⟨by omega, by omega, mask_shift_eq _ (by omega), hlow⟩

/-- Witness for C4 at `upper_bound = 5`: `bits = 3`, `2^3 - 1 = 7 ≥ 5`,
`2^2 - 1 = 3 < 5`, the mask is 7, and `2^2 = 4 ≤ 5`. -/
theorem mchr_bits_mask_minimal_witness :
    2 ≤ 5 ∧ 5 < 2 ^ 32 ∧
      (5 ≤ 2 ^ (32 - clz 5) - 1 ∧ 2 ^ (32 - clz 5 - 1) - 1 < 5 ∧
        0xFFFFFFFF >>> clz 5 = 2 ^ (32 - clz 5) - 1 ∧ 2 ^ (32 - clz 5 - 1) ≤ 5) :=
  ⟨by decide, by decide, mchr_bits_mask_minimal 5 (by decide) (by decide)⟩

/-- C8: a degenerate bound (0 or 1) makes `mchr_get_hash_uint_under_limit`
return 0 deterministically, immediately, for every buffer, seed and fuel. -/
theorem mchr_under_limit_degenerate_returns_zero (fuel : Nat) (index_buffer : List Nat)
    (seed upper_bound : Nat) (h : upper_bound < 2) :
    mchr_get_hash_uint_under_limit fuel index_buffer seed upper_bound = some 0 :=
  mchr_under_limit_degenerate fuel index_buffer seed upper_bound h

/-- Witness for C8 at bound 1. -/
theorem mchr_under_limit_degenerate_returns_zero_witness :
    1 < 2 ∧ mchr_get_hash_uint_under_limit 1 [0] 0 1 = some 0 :=
  ⟨by decide, mchr_under_limit_degenerate_returns_zero 1 [0] 0 1 (by decide)⟩

/-- C9: with `min = 0` and `max = 2^32 - 1`, the bound `max - min + 1` wraps
to 0, the sampler takes its degenerate branch, and
`mchr_get_hash_uint_in_range` returns 0 for every buffer, seed and fuel. -/
theorem mchr_uint_in_range_full_span_zero (fuel : Nat) (index_buffer : List Nat)
    (seed : Nat) :
    mchr_get_hash_uint_in_range fuel index_buffer seed 0 (2 ^ 32 - 1) = some 0 := rfl

/-- C10: the `upper_bound < 2` guard returns before the `clz` call, so `clz`
is only ever invoked on a nonzero argument; there `zeros ≤ 30` and
`bits = 32 - zeros ≥ 2`. -/
theorem mchr_clz_call_sites_safe (fuel : Nat) (index_buffer : List Nat)
    (seed upper_bound : Nat) :
    (upper_bound < 2 →
      mchr_get_hash_uint_under_limit fuel index_buffer seed upper_bound = some 0) ∧
    (2 ≤ upper_bound → upper_bound < 2 ^ 32 →
      upper_bound ≠ 0 ∧ clz upper_bound ≤ 30 ∧ 2 ≤ 32 - clz upper_bound) := by
  constructor
  · exact fun h => mchr_under_limit_degenerate fuel index_buffer seed upper_bound h
  · intro h2 h32
    obtain ⟨_, _, hb, hz⟩ := clz_bits_bounds upper_bound h2 h32
    exact ⟨by omega, hz, hb⟩

/-- Witness for C10: the guard at bound 1, and the `clz` facts at bound 5. -/
theorem mchr_clz_call_sites_safe_witness :
    mchr_get_hash_uint_under_limit 1 [0] 0 1 = some 0 ∧
      ((5 : Nat) ≠ 0 ∧ clz 5 ≤ 30 ∧ 2 ≤ 32 - clz 5) :=
  ⟨(mchr_clz_call_sites_safe 1 [0] 0 1).1 (by decide),
    (mchr_clz_call_sites_safe 1 [0] 0 5).2 (by decide) (by decide)⟩

/-- The [0, 1] mapper always lands in the closed unit interval. -/
theorem mchr_uint_to_zero_one_mem (num : Nat) :
    0 ≤ mchr_priv_uint_to_zero_one num ∧ mchr_priv_uint_to_zero_one num ≤ 1 := by
  unfold mchr_priv_uint_to_zero_one
  split
  · norm_num
  · constructor
    · positivity
    · rw [div_le_one (by norm_num)]
      have hle : (num &&& (2 ^ 24 - 1)) ≤ 2 ^ 24 - 1 := Nat.and_le_right
      have h2 : ((num &&& (2 ^ 24 - 1) : Nat) : ℚ) ≤ ((2 ^ 24 - 1 : Nat) : ℚ) := by
        exact_mod_cast hle
      calc ((num &&& (2 ^ 24 - 1) : Nat) : ℚ) ≤ ((2 ^ 24 - 1 : Nat) : ℚ) := h2
        _ ≤ 2 ^ 24 := by norm_num

/-- C6: `mchr_get_hash_zero_to_one` draws `under_limit(buf, seed, 2^24 + 1)` —
an integer in [0, 2^24] inclusive — and maps it through the linear
`mchr_priv_uint_to_zero_one`; every returned value lies in [0, 1], and the
edge draw 2^24 maps to exactly 1. -/
theorem mchr_zero_to_one_closed_range (fuel : Nat) (index_buffer : List Nat)
    (seed r : Nat) (q : ℚ) :
    (mchr_get_hash_zero_to_one fuel index_buffer seed =
      (mchr_get_hash_uint_under_limit fuel index_buffer seed (2 ^ 24 + 1)).map
        mchr_priv_uint_to_zero_one) ∧
    (mchr_get_hash_uint_under_limit fuel index_buffer seed (2 ^ 24 + 1) = some r →
      r ≤ 2 ^ 24) ∧
    (mchr_get_hash_zero_to_one fuel index_buffer seed = some q → 0 ≤ q ∧ q ≤ 1) ∧
    mchr_priv_uint_to_zero_one (2 ^ 24) = 1 := by
  refine ⟨rfl, ?_, ?_, ?_⟩
  · intro h
    have := mchr_under_limit_lt fuel index_buffer seed (2 ^ 24 + 1) r (by norm_num) h
    omega
  · intro h
    unfold mchr_get_hash_zero_to_one at h
    cases hu : mchr_get_hash_uint_under_limit fuel index_buffer seed (2 ^ 24 + 1) with
    | none => rw [hu] at h; simp at h
    | some r0 =>
      rw [hu] at h
      simp only [Option.map_some'] at h
      cases h
      exact mchr_uint_to_zero_one_mem r0
  · unfold mchr_priv_uint_to_zero_one
    norm_num

/-- Witness for C6 at fuel 1, buffer `[0]`, seed 0: the draw is 7641960 and
the mapped value lies in [0, 1]. -/
theorem mchr_zero_to_one_closed_range_witness :
    mchr_get_hash_uint_under_limit 1 [0] 0 (2 ^ 24 + 1) = some 7641960 ∧
      mchr_get_hash_zero_to_one 1 [0] 0 = some (mchr_priv_uint_to_zero_one 7641960) ∧
      (0 ≤ mchr_priv_uint_to_zero_one 7641960 ∧ mchr_priv_uint_to_zero_one 7641960 ≤ 1) ∧
      7641960 ≤ 2 ^ 24 :=
  ⟨by decide,
    (show mchr_get_hash_zero_to_one 1 [0] 0 = some (mchr_priv_uint_to_zero_one 7641960) by
      unfold mchr_get_hash_zero_to_one
      rw [show mchr_get_hash_uint_under_limit 1 [0] 0 (2 ^ 24 + 1) = some 7641960 by decide]
      rfl),
    (mchr_zero_to_one_closed_range 1 [0] 0 7641960
      (mchr_priv_uint_to_zero_one 7641960)).2.2.1
      (show mchr_get_hash_zero_to_one 1 [0] 0 = some (mchr_priv_uint_to_zero_one 7641960) by
        unfold mchr_get_hash_zero_to_one
        rw [show mchr_get_hash_uint_under_limit 1 [0] 0 (2 ^ 24 + 1) = some 7641960 by decide]
        rfl),
    (mchr_zero_to_one_closed_range 1 [0] 0 7641960
      (mchr_priv_uint_to_zero_one 7641960)).2.1 (by decide)⟩

/-- C2 (counterexample): `chance` with probability 1.0 is not always true.
At buffer `[1]` and seed 33627782 the bounded draw is exactly 2^24, the [0, 1]
mapper returns exactly 1, and `1 < 1` fails, so the call returns `false`. -/
theorem mchr_chance_prob_one_not_always_true :
    mchr_get_chance 1 [1] 33627782 1 = some false := by decide

/-- C2 (amended): `chance` returns `zero_to_one(buf, seed) < probability` — a
test against the closed interval [0, 1], not [0, 1).  With probability 0.0 it
always returns false; with probability 1.0 it returns true exactly when the
bounded draw is below 2^24, and false on the edge draw 2^24 (where
`zero_to_one` is exactly 1.0). -/
theorem mchr_chance_boundary_amended (fuel : Nat) (index_buffer : List Nat)
    (seed r : Nat)
    (h : mchr_get_hash_uint_under_limit fuel index_buffer seed (2 ^ 24 + 1) = some r) :
    mchr_get_chance fuel index_buffer seed 0 = some false ∧
      mchr_get_chance fuel index_buffer seed 1 = some (decide (r < 2 ^ 24)) := by
  have hr : r < 2 ^ 24 + 1 := mchr_under_limit_lt _ _ _ _ _ (by norm_num) h
  unfold mchr_get_chance mchr_get_hash_zero_to_one
  rw [h]
  simp only [Option.map_some', Option.some.injEq]
  constructor
  · have h0 : 0 ≤ mchr_priv_uint_to_zero_one r := (mchr_uint_to_zero_one_mem r).1
    simp [not_lt.mpr h0]
  · rw [decide_eq_decide]
    by_cases hcase : 2 ^ 24 ≤ r
    · have hre : r = 2 ^ 24 := by omega
      subst hre
      unfold mchr_priv_uint_to_zero_one
      norm_num
    · unfold mchr_priv_uint_to_zero_one
      rw [if_neg hcase]
      have hand : (r &&& (2 ^ 24 - 1)) = r := by
        rw [Nat.and_pow_two_sub_one_eq_mod, Nat.mod_eq_of_lt (by omega)]
      rw [hand]
      have hq1 : (r : ℚ) / 2 ^ 24 < 1 := by
        rw [div_lt_one (by norm_num)]
        exact_mod_cast (by omega : r < 2 ^ 24)
      exact iff_of_true hq1 (by omega)

/-- Witness for the amended C2, at the edge input: the draw is exactly 2^24,
probability 0.0 gives false, and probability 1.0 gives
`decide (2^24 < 2^24) = false`. -/
theorem mchr_chance_boundary_amended_witness :
    mchr_get_hash_uint_under_limit 1 [1] 33627782 (2 ^ 24 + 1) = some 16777216 ∧
      (mchr_get_chance 1 [1] 33627782 0 = some false ∧
        mchr_get_chance 1 [1] 33627782 1 = some (decide (16777216 < 2 ^ 24))) :=
  ⟨by decide, mchr_chance_boundary_amended 1 [1] 33627782 16777216 (by decide)⟩

/-- C5: both ranged samplers return `under_limit(buf, seed, max - min + 1) + min`
(in wrapping 32-bit arithmetic, the signed variant reinterpreted), and every
returned value lies in the closed range `[min, max]` when `min < max` holds in
the respective 32-bit domain. -/
theorem mchr_in_range_closed_bounds (fuel : Nat) (index_buffer : List Nat)
    (seed : Nat) (min1 max1 v1 : Nat) (min2 max2 v2 : Int) :
    (mchr_get_hash_uint_in_range fuel index_buffer seed min1 max1 =
      (mchr_get_hash_uint_under_limit fuel index_buffer seed
          ((max1 - min1 + 1) % 2 ^ 32)).map (fun r => (r + min1) % 2 ^ 32)) ∧
    (min1 < max1 → max1 < 2 ^ 32 →
      mchr_get_hash_uint_in_range fuel index_buffer seed min1 max1 = some v1 →
      min1 ≤ v1 ∧ v1 ≤ max1) ∧
    (mchr_get_hash_int_in_range fuel index_buffer seed min2 max2 =
      (mchr_get_hash_uint_under_limit fuel index_buffer seed
          ((max2 - min2 + 1) % 2 ^ 32).toNat).map
        (fun r => mchr_int32_wrap (Int.ofNat r + min2))) ∧
    (min2 < max2 → -2 ^ 31 ≤ min2 → max2 < 2 ^ 31 →
      mchr_get_hash_int_in_range fuel index_buffer seed min2 max2 = some v2 →
      min2 ≤ v2 ∧ v2 ≤ max2) := by
  refine ⟨rfl, ?_, rfl, ?_⟩
  · intro hmm hmx h
    unfold mchr_get_hash_uint_in_range at h
    by_cases hwrap : max1 - min1 + 1 = 2 ^ 32
    · have hmin0 : min1 = 0 := by omega
      have hz : (max1 - min1 + 1) % 2 ^ 32 = 0 := by rw [hwrap]; simp
      rw [hz, mchr_under_limit_degenerate fuel index_buffer seed 0 (by omega)] at h
      simp only [Option.map_some', Option.some.injEq] at h
      subst h
      subst hmin0
      constructor <;> omega
    · have hmod : max1 - min1 + 1 < 2 ^ 32 := by omega
      have hub2 : 2 ≤ (max1 - min1 + 1) % 2 ^ 32 := by
        rw [Nat.mod_eq_of_lt hmod]; omega
      cases hu : mchr_get_hash_uint_under_limit fuel index_buffer seed
          ((max1 - min1 + 1) % 2 ^ 32) with
      | none => rw [hu] at h; simp at h
      | some r =>
        have hr := mchr_under_limit_lt _ _ _ _ _ hub2 hu
        rw [Nat.mod_eq_of_lt hmod] at hr
        rw [hu] at h
        simp only [Option.map_some', Option.some.injEq] at h
        subst h
        have hlt : r + min1 < 2 ^ 32 := by omega
        rw [Nat.mod_eq_of_lt hlt]
        omega
  · intro hmm hmn hmx h
    unfold mchr_get_hash_int_in_range at h
    have e31 : (2 : Int) ^ 31 = 2147483648 := by norm_num
    have e32 : (2 : Int) ^ 32 = 4294967296 := by norm_num
    rw [e31] at hmn hmx
    by_cases hwrap : max2 - min2 + 1 = 4294967296
    · have hz : ((max2 - min2 + 1) % 2 ^ 32).toNat = 0 := by
        rw [e32, hwrap]
        simp
      rw [hz, mchr_under_limit_degenerate fuel index_buffer seed 0 (by omega)] at h
      have hv := (Option.some.inj h).symm
      subst hv
      simp only [mchr_int32_wrap]
      rw [e31, e32]
      omega
    · have hpos : 0 ≤ max2 - min2 + 1 := by omega
      have hlt32 : max2 - min2 + 1 < 4294967296 := by omega
      have hmodid : (max2 - min2 + 1) % 2 ^ 32 = max2 - min2 + 1 := by
        rw [e32]
        exact Int.emod_eq_of_lt hpos hlt32
      have hub2 : 2 ≤ ((max2 - min2 + 1) % 2 ^ 32).toNat := by
        rw [hmodid]; omega
      cases hu : mchr_get_hash_uint_under_limit fuel index_buffer seed
          ((max2 - min2 + 1) % 2 ^ 32).toNat with
      | none => rw [hu] at h; simp at h
      | some r =>
        have hr := mchr_under_limit_lt _ _ _ _ _ hub2 hu
        rw [hmodid] at hr
        rw [hu] at h
        have hv := (Option.some.inj h).symm
        subst hv
        have hrI : (r : Int) ≤ max2 - min2 := by omega
        simp only [mchr_int32_wrap, Int.ofNat_eq_coe]
        rw [e31, e32]
        omega

/-- Witness for C5: at fuel 1, buffer `[0]`, seed 0 the draw under bound 8 is
6, so the unsigned range [3, 10] yields 9 and the signed range [-5, 2]
yields 1, both inside their closed ranges. -/
theorem mchr_in_range_closed_bounds_witness :
    (mchr_get_hash_uint_in_range 1 [0] 0 3 10 = some 9 ∧ 3 ≤ 9 ∧ 9 ≤ 10) ∧
      (mchr_get_hash_int_in_range 1 [0] 0 (-5) 2 = some 1 ∧
        (-5 : Int) ≤ 1 ∧ (1 : Int) ≤ 2) :=
  ⟨⟨by decide,
      ((mchr_in_range_closed_bounds 1 [0] 0 3 10 9 (-5) 2 1).2.1
        (by decide) (by decide) (by decide)).1,
      ((mchr_in_range_closed_bounds 1 [0] 0 3 10 9 (-5) 2 1).2.1
        (by decide) (by decide) (by decide)).2⟩,
    ⟨by decide,
      ((mchr_in_range_closed_bounds 1 [0] 0 3 10 9 (-5) 2 1).2.2.2
        (by decide) (by decide) (by decide) (by decide)).1,
      ((mchr_in_range_closed_bounds 1 [0] 0 3 10 9 (-5) 2 1).2.2.2
        (by decide) (by decide) (by decide) (by decide)).2⟩⟩

/-- C7: every 1-, 2-, 3- and 4-coordinate facade equals the corresponding
buffer-based operation applied to the buffer of the coordinates packed, in
argument order, as 32-bit words, with the seed and remaining arguments passed
unchanged. -/
theorem mchr_dimensional_facade_delegates (fuel : Nat) (x y z t : Int)
    (seed min1 max1 : Nat) (min2 max2 : Int) (p : ℚ) :
    (mchr_get_1d_hash_uint x seed = mchr_get_hash_uint [mchr_pack_coord x] seed) ∧
    (mchr_get_2d_hash_uint x y seed =
      mchr_get_hash_uint [mchr_pack_coord x, mchr_pack_coord y] seed) ∧
    (mchr_get_3d_hash_uint x y z seed =
      mchr_get_hash_uint [mchr_pack_coord x, mchr_pack_coord y, mchr_pack_coord z] seed) ∧
    (mchr_get_4d_hash_uint x y z t seed =
      mchr_get_hash_uint
        [mchr_pack_coord x, mchr_pack_coord y, mchr_pack_coord z, mchr_pack_coord t] seed) ∧
    (mchr_get_1d_hash_uint_in_range fuel x seed min1 max1 =
      mchr_get_hash_uint_in_range fuel [mchr_pack_coord x] seed min1 max1) ∧
    (mchr_get_2d_hash_uint_in_range fuel x y seed min1 max1 =
      mchr_get_hash_uint_in_range fuel [mchr_pack_coord x, mchr_pack_coord y] seed min1 max1) ∧
    (mchr_get_3d_hash_uint_in_range fuel x y z seed min1 max1 =
      mchr_get_hash_uint_in_range fuel
        [mchr_pack_coord x, mchr_pack_coord y, mchr_pack_coord z] seed min1 max1) ∧
    (mchr_get_4d_hash_uint_in_range fuel x y z t seed min1 max1 =
      mchr_get_hash_uint_in_range fuel
        [mchr_pack_coord x, mchr_pack_coord y, mchr_pack_coord z, mchr_pack_coord t]
        seed min1 max1) ∧
    (mchr_get_1d_hash_int_in_range fuel x seed min2 max2 =
      mchr_get_hash_int_in_range fuel [mchr_pack_coord x] seed min2 max2) ∧
    (mchr_get_2d_hash_int_in_range fuel x y seed min2 max2 =
      mchr_get_hash_int_in_range fuel [mchr_pack_coord x, mchr_pack_coord y] seed min2 max2) ∧
    (mchr_get_3d_hash_int_in_range fuel x y z seed min2 max2 =
      mchr_get_hash_int_in_range fuel
        [mchr_pack_coord x, mchr_pack_coord y, mchr_pack_coord z] seed min2 max2) ∧
    (mchr_get_4d_hash_int_in_range fuel x y z t seed min2 max2 =
      mchr_get_hash_int_in_range fuel
        [mchr_pack_coord x, mchr_pack_coord y, mchr_pack_coord z, mchr_pack_coord t]
        seed min2 max2) ∧
    (mchr_get_1d_hash_zero_to_one fuel x seed =
      mchr_get_hash_zero_to_one fuel [mchr_pack_coord x] seed) ∧
    (mchr_get_2d_hash_zero_to_one fuel x y seed =
      mchr_get_hash_zero_to_one fuel [mchr_pack_coord x, mchr_pack_coord y] seed) ∧
    (mchr_get_3d_hash_zero_to_one fuel x y z seed =
      mchr_get_hash_zero_to_one fuel
        [mchr_pack_coord x, mchr_pack_coord y, mchr_pack_coord z] seed) ∧
    (mchr_get_4d_hash_zero_to_one fuel x y z t seed =
      mchr_get_hash_zero_to_one fuel
        [mchr_pack_coord x, mchr_pack_coord y, mchr_pack_coord z, mchr_pack_coord t] seed) ∧
    (mchr_get_1d_hash_neg_one_to_one fuel x seed =
      mchr_get_hash_neg_one_to_one fuel [mchr_pack_coord x] seed) ∧
    (mchr_get_2d_hash_neg_one_to_one fuel x y seed =
      mchr_get_hash_neg_one_to_one fuel [mchr_pack_coord x, mchr_pack_coord y] seed) ∧
    (mchr_get_3d_hash_neg_one_to_one fuel x y z seed =
      mchr_get_hash_neg_one_to_one fuel
        [mchr_pack_coord x, mchr_pack_coord y, mchr_pack_coord z] seed) ∧
    (mchr_get_4d_hash_neg_one_to_one fuel x y z t seed =
      mchr_get_hash_neg_one_to_one fuel
        [mchr_pack_coord x, mchr_pack_coord y, mchr_pack_coord z, mchr_pack_coord t] seed) ∧
    (mchr_get_1d_chance fuel x seed p = mchr_get_chance fuel [mchr_pack_coord x] seed p) ∧
    (mchr_get_2d_chance fuel x y seed p =
      mchr_get_chance fuel [mchr_pack_coord x, mchr_pack_coord y] seed p) ∧
    (mchr_get_3d_chance fuel x y z seed p =
      mchr_get_chance fuel [mchr_pack_coord x, mchr_pack_coord y, mchr_pack_coord z] seed p) ∧
    (mchr_get_4d_chance fuel x y z t seed p =
      mchr_get_chance fuel
        [mchr_pack_coord x, mchr_pack_coord y, mchr_pack_coord z, mchr_pack_coord t] seed p) :=
  ⟨rfl, rfl, rfl, rfl, rfl, rfl, rfl, rfl, rfl, rfl, rfl, rfl,
    rfl, rfl, rfl, rfl, rfl, rfl, rfl, rfl, rfl, rfl, rfl, rfl⟩

end MCHashRng
